import Mathlib

/-
Shallow embedding of the opsai-bot alert-remediation core.

Strings are Lean `String` values; Go string scanning is modelled on the
underlying `List Char` (`String.data`).  Substring containment
(`strings.Contains`) is `decide (sub.data <:+: s.data)`.

Conventions kept throughout the embedding:
- Go `(T, error)` returns become `Except String T`; a `nil` error is `.ok`,
  and functions whose result is discarded except for the error become
  `Option String` (the error, `none` = nil).
- Timestamps (`time.Time` fields such as CreatedAt/UpdatedAt) and the
  random `generateID` are not observable by any verified property and are
  omitted from the record types; status/content fields are kept verbatim.
- Go maps used as sets (`map[string]bool`) are lists with `List.contains`
  membership, built by the same lowercasing `toSet` as the source.
-/

namespace OpsAI

/-- ASCII fragment of Go `unicode.IsSpace`, the separator set used by
`strings.Fields` as exercised by this code base (commands are ASCII). -/
def isSpaceChar (c : Char) : Bool :=
  c = ' ' || c = '\t' || c = '\n' || c = Char.ofNat 11 || c = Char.ofNat 12 || c = '\r'

/-- Go `strings.ToLower`. -/
def toLowerS (s : String) : String :=
  ⟨s.data.map Char.toLower⟩

/-- Go `strings.Contains s sub`. -/
def containsS (s sub : String) : Bool :=
  decide (sub.data <:+: s.data)

/-- Go `strings.HasPrefix s pre`. -/
def hasPrefixS (s pre : String) : Bool :=
  decide (pre.data <+: s.data)

/-- Accumulator-based splitter behind `fieldsS` (Go `strings.Fields`):
`cur` is the reversed current token. -/
def fieldsAux : List Char → List Char → List (List Char)
  | cur, [] => if cur.isEmpty then [] else [cur.reverse]
  | cur, c :: rest =>
    if isSpaceChar c then
      if cur.isEmpty then fieldsAux [] rest else cur.reverse :: fieldsAux [] rest
    else fieldsAux (c :: cur) rest

/-- Go `strings.Fields`: split around runs of whitespace, dropping empties. -/
def fieldsS (s : String) : List String :=
  (fieldsAux [] s.data).map (fun l => ⟨l⟩)

/-- Go `strings.Join elems sep`. -/
def joinWith (sep : String) : List String → String
  | [] => ""
  | [x] => x
  | x :: xs => x ++ sep ++ joinWith sep xs

/-! ## Whitelist (internal/adapter/outbound/kubernetes/whitelist.go)

The embedded version is the one the repository's test suite
(`whitelist_test.go`: dangerous patterns, sensitive paths, curl URL
filtering, full-argument inspection) pins down: `IsExecAllowed` validates
the binary against the exec whitelist AND scans the whole command for
dangerous patterns, sensitive file paths and external curl URLs, and
`ValidateExecCommand` joins all tokens before that scan. -/

structure WhitelistConfig where
  ReadOnly : List String
  Exec : List String
  Remediation : List String
  BlockedNamespaces : List String

structure Whitelist where
  readOnly : List String
  exec : List String
  remediation : List String
  blockedNS : List String

/-- Go `toSet`: lowercases every item; membership is by `List.contains`. -/
def toSet (items : List String) : List String :=
  items.map toLowerS

def NewWhitelist (cfg : WhitelistConfig) : Whitelist :=
  { readOnly := toSet cfg.ReadOnly
    exec := toSet cfg.Exec
    remediation := toSet cfg.Remediation
    blockedNS := toSet cfg.BlockedNamespaces }

/-- Source `dangerousPatterns`: shell metacharacters and injection patterns. -/
def dangerousPatterns : List String :=
  ["$(", "`", "|", ">>", "<<", ";", "&&", "||"]

/-- Source `sensitivePathFragments`: path fragments that must never appear in exec
arguments. -/
def sensitivePathFragments : List String :=
  ["/etc/shadow", "/etc/passwd", "/etc/master.passwd",
   "/proc/self/environ", "/proc/self/cmdline",
   "/.ssh/", "/.kube/config", "/.env",
   "/var/run/secrets"]

/-- Source `isInternalClusterURL`. -/
def isInternalClusterURL (u : String) : Bool :=
  ["localhost", "127.0.0.1", "::1",
   ".svc.cluster.local", ".svc.cluster.",
   ".local:", ".local/"].any (fun pat => containsS u pat)

def Whitelist.IsNamespaceBlocked (w : Whitelist) (ns : String) : Bool :=
  w.blockedNS.contains ns

/-- Source `IsExecAllowed`: binary must be exec-whitelisted, the lowercased full
command must contain no dangerous pattern and no sensitive path fragment,
and for curl every absolute URL argument must be cluster-internal.  The
source's sequence of early `return false`s is written as the equivalent
short-circuit conjunction. -/
def Whitelist.IsExecAllowed (w : Whitelist) (command : String) : Bool :=
  match fieldsS command with
  | [] => false
  | binary :: args =>
    let b := toLowerS binary
    let fullCmd := toLowerS command
    w.exec.contains b
      && !(dangerousPatterns.any (fun pat => containsS fullCmd pat))
      && !(sensitivePathFragments.any (fun frag => containsS fullCmd frag))
      && (if b = "curl" then
            args.all (fun arg =>
              let a := toLowerS arg
              if hasPrefixS a "http://" || hasPrefixS a "https://" then
                isInternalClusterURL a
              else true)
          else true)

/-- Source `ValidateExecCommand`: joins all tokens into a single string so that
`IsExecAllowed` inspects every argument. -/
def Whitelist.ValidateExecCommand (w : Whitelist) (command : List String) :
    Bool × String :=
  if command.isEmpty then (false, "empty command")
  else
    let fullCmd := joinWith " " command
    if !(w.IsExecAllowed fullCmd) then
      (false, "command not allowed: " ++ command.headD "")
    else (true, "command allowed")

/-! ## Executor.ValidateCommand (internal/adapter/outbound/kubernetes/executor.go) -/

structure CommandValidation where
  Allowed : Bool
  Reason : String
  Risk : String
  deriving DecidableEq

/-- Source `extractNamespaceFlag`: scans tokens for `-n`/`--namespace` and returns
the value. -/
def extractNamespaceFlag : List String → String
  | [] => ""
  | tok :: rest =>
    if tok = "-n" || tok = "--namespace" then
      match rest with
      | v :: _ => v
      | [] => ""
    else if hasPrefixS tok "--namespace=" then
      ⟨tok.data.drop ("--namespace=".data.length)⟩
    else extractNamespaceFlag rest

/-- Source `Executor.ValidateCommand`: whitelist check plus blocked-namespace check. -/
def ExecutorValidateCommand (w : Whitelist) (command : List String) :
    CommandValidation :=
  if command.isEmpty then
    { Allowed := false, Reason := "empty command", Risk := "none" }
  else
    let res := w.ValidateExecCommand command
    if !res.1 then { Allowed := false, Reason := res.2, Risk := "blocked" }
    else
      let ns := extractNamespaceFlag command
      if ns ≠ "" && w.IsNamespaceBlocked ns then
        { Allowed := false, Reason := "namespace is blocked: " ++ ns, Risk := "blocked" }
      else { Allowed := true, Reason := res.2, Risk := "low" }

/-- The injection patterns named by the specification (a subset of the
source's `dangerousPatterns`). -/
def claimInjectionPatterns : List String :=
  ["$(", "`", "|", ";", "&&", "||"]

/-! ## Domain model (internal/domain/model)

Timestamp fields (`CreatedAt`, `UpdatedAt`, `ResolvedAt`, `ApprovedAt`,
`ExecutedAt`, `CompletedAt`), the label/annotation/metadata maps and the
random `generateID` are omitted: no verified property observes them.  The
Go string-typed enumerations (`AlertStatus`, `ActionStatus`, `ActionType`,
`RiskLevel`, `PolicyMode`) stay strings, as in the source. -/

structure Alert where
  id : String
  externalID : String
  fingerprint : String
  source : String
  status : String
  severity : String
  title : String
  description : String
  environment : String
  nspace : String
  resource : String
  threadID : String
  deriving DecidableEq

def Alert.withFingerprint (a : Alert) (fp : String) : Alert :=
  { a with fingerprint := fp }

/-- Source `Alert.WithStatus`: returns a new Alert with updated status. -/
def Alert.withStatus (a : Alert) (status : String) : Alert :=
  { a with status := status }

def Alert.withThreadID (a : Alert) (threadID : String) : Alert :=
  { a with threadID := threadID }

/-- Source `Alert.Resolve`. -/
def Alert.resolve (a : Alert) : Alert :=
  { a with status := "resolved" }

/-- Source `Alert.IsTerminal`. -/
def Alert.isTerminal (a : Alert) : Bool :=
  a.status = "resolved" || a.status = "failed" || a.status = "duplicate"
    || a.status = "silenced"

structure Action where
  id : String
  analysisID : String
  alertID : String
  type : String
  status : String
  description : String
  commands : List String
  risk : String
  reversible : Bool
  output : String
  errorMessage : String
  approvedBy : String
  environment : String
  nspace : String
  deriving DecidableEq

/-- Source `NewAction` (the random ID is left empty in the model). -/
def NewAction (analysisID alertID actionType description : String)
    (commands : List String) (risk : String) : Action :=
  { id := "", analysisID := analysisID, alertID := alertID, type := actionType
    status := "planned", description := description, commands := commands
    risk := risk, reversible := false, output := "", errorMessage := ""
    approvedBy := "", environment := "", nspace := "" }

def Action.withStatus (a : Action) (status : String) : Action :=
  { a with status := status }

def Action.approve (a : Action) (approvedBy : String) : Action :=
  { a with status := "approved", approvedBy := approvedBy }

def Action.reject (a : Action) (rejectedBy : String) : Action :=
  { a with status := "rejected", approvedBy := rejectedBy }

def Action.complete (a : Action) (output : String) : Action :=
  { a with status := "completed", output := output }

/-- Source `Action.WithExecutedAt` (the timestamp argument is dropped with the
omitted field; the status write is kept). -/
def Action.withExecutedAt (a : Action) : Action :=
  { a with status := "executing" }

def Action.fail (a : Action) (errMsg : String) : Action :=
  { a with status := "failed", errorMessage := errMsg }

def Action.withEnvironment (a : Action) (env : String) : Action :=
  { a with environment := env }

def Action.withNamespace (a : Action) (ns : String) : Action :=
  { a with nspace := ns }

def Action.withReversible (a : Action) (reversible : Bool) : Action :=
  { a with reversible := reversible }

def Action.needsApprovalQ (a : Action) : Bool :=
  a.status = "pending"

/-- Source `Action.IsTerminal`. -/
def Action.isTerminal (a : Action) : Bool :=
  a.status = "completed" || a.status = "failed" || a.status = "rejected"
    || a.status = "rolled_back"

structure ChatMessage where
  role : String
  content : String
  userID : String
  deriving DecidableEq

structure ConversationThread where
  id : String
  alertID : String
  threadID : String
  channelID : String
  messages : List ChatMessage
  active : Bool
  deriving DecidableEq

def NewConversationThread (alertID threadID channelID : String) :
    ConversationThread :=
  { id := "", alertID := alertID, threadID := threadID, channelID := channelID
    messages := [], active := true }

def ConversationThread.addMessage (c : ConversationThread)
    (role content userID : String) : ConversationThread :=
  { c with messages := c.messages ++ [{ role := role, content := content, userID := userID }] }

def ConversationThread.close (c : ConversationThread) : ConversationThread :=
  { c with active := false }

/-- Source `ConversationThread.LastNMessages`.  Go slices: `c.Messages[low:]` is
legal iff `0 ≤ low ≤ len(c.Messages)`; an out-of-range index panics, which
the embedding models as `none`.  `n` is a Go `int`, hence `Int` here. -/
def ConversationThread.lastNMessages (c : ConversationThread) (n : Int) :
    Option (List ChatMessage) :=
  if (c.messages.length : Int) ≤ n then some c.messages
  else
    let low : Int := (c.messages.length : Int) - n
    if 0 ≤ low ∧ low ≤ (c.messages.length : Int) then
      some (c.messages.drop low.toNat)
    else none

structure Analysis where
  id : String
  alertID : String
  provider : String
  model : String
  rootCause : String
  severity : String
  explanation : String
  k8sContext : String
  deriving DecidableEq

/-- Source `NewAnalysis` (random ID left empty). -/
def NewAnalysis (alertID provider model : String) : Analysis :=
  { id := "", alertID := alertID, provider := provider, model := model
    rootCause := "", severity := "", explanation := "", k8sContext := "" }

/-- Source `Analysis.WithDiagnosis` (the float64 confidence field is among the
omitted telemetry). -/
def Analysis.withDiagnosis (a : Analysis)
    (rootCause severity explanation : String) : Analysis :=
  { a with rootCause := rootCause, severity := severity, explanation := explanation }

/-- Modelled from the spec: `Analysis.WithK8sContext` is called by
`AnalyzeAlert` but its definition is missing from the snapshot; it sets
the gathered-context field of the immutable Analysis value. -/
def Analysis.withK8sContext (a : Analysis) (ctx : String) : Analysis :=
  { a with k8sContext := ctx }

/-! ## EnvironmentPolicy and PolicyEvaluator
(internal/domain/model/policy.go, internal/domain/service/policy_evaluator.go)

The repository lookup `repo.GetByEnvironment` is passed in as its result
(`Except String EnvironmentPolicy`); the Go function's `error` return is
the second component (always `none`, exactly as every `return ..., nil`
in the source). -/

structure EnvironmentPolicy where
  id : String
  environment : String
  mode : String
  maxAutoRisk : String
  approvers : List String
  namespaces : List String
  enabled : Bool
  deriving DecidableEq

structure PolicyDecision where
  allowed : Bool
  needsApproval : Bool
  autoExecute : Bool
  reason : String
  approvers : List String
  maxRiskLevel : String
  deriving DecidableEq

/-- Source `riskOrder` map: risk level string → comparable integer. -/
def riskOrder (r : String) : Option Nat :=
  if r = "low" then some 0
  else if r = "medium" then some 1
  else if r = "high" then some 2
  else if r = "critical" then some 3
  else none

/-- Source `isRiskAcceptable`: unknown levels are unacceptable. -/
def isRiskAcceptable (actionRisk maxRisk : String) : Bool :=
  match riskOrder actionRisk, riskOrder maxRisk with
  | some actionOrder, some maxOrder => decide (actionOrder ≤ maxOrder)
  | _, _ => false

/-- Source `PolicyEvaluator.Evaluate`. -/
def evaluate (lookup : Except String EnvironmentPolicy) (environment : String)
    (action : Action) : PolicyDecision × Option String :=
  match lookup with
  | .error err =>
    ({ allowed := true, needsApproval := true, autoExecute := false
       reason := "policy lookup failed (" ++ err ++ "); defaulting to approval-required"
       approvers := [], maxRiskLevel := "low" }, none)
  | .ok policy =>
    if !policy.enabled then
      ({ allowed := false, needsApproval := false, autoExecute := false
         reason := "policy for environment " ++ environment ++ " is disabled"
         approvers := [], maxRiskLevel := policy.maxAutoRisk }, none)
    else
      let actionRisk := action.risk
      if policy.mode = "auto_fix" then
        if !(isRiskAcceptable actionRisk policy.maxAutoRisk) then
          ({ allowed := true, needsApproval := true, autoExecute := false
             reason := "action risk " ++ actionRisk ++ " exceeds max auto-risk " ++ policy.maxAutoRisk ++ " for env " ++ environment
             approvers := policy.approvers, maxRiskLevel := policy.maxAutoRisk }, none)
        else
          ({ allowed := true, needsApproval := false, autoExecute := true
             reason := "auto_fix policy: risk " ++ actionRisk ++ " is within limit " ++ policy.maxAutoRisk
             approvers := [], maxRiskLevel := policy.maxAutoRisk }, none)
      else if policy.mode = "warn_auto" then
        if !(isRiskAcceptable actionRisk policy.maxAutoRisk) then
          ({ allowed := true, needsApproval := true, autoExecute := false
             reason := "warn_auto policy: action risk " ++ actionRisk ++ " exceeds limit " ++ policy.maxAutoRisk ++ "; approval required"
             approvers := policy.approvers, maxRiskLevel := policy.maxAutoRisk }, none)
        else
          ({ allowed := true, needsApproval := false, autoExecute := true
             reason := "warn_auto policy: executing with warning (risk " ++ actionRisk ++ ")"
             approvers := [], maxRiskLevel := policy.maxAutoRisk }, none)
      else if policy.mode = "approval_required" then
        ({ allowed := true, needsApproval := true, autoExecute := false
           reason := "approval_required policy for environment " ++ environment
           approvers := policy.approvers, maxRiskLevel := policy.maxAutoRisk }, none)
      else
        ({ allowed := true, needsApproval := true, autoExecute := false
           reason := "unknown policy mode " ++ policy.mode ++ "; defaulting to approval-required"
           approvers := policy.approvers, maxRiskLevel := policy.maxAutoRisk }, none)

/-- The specification's risk levels in their total order. -/
def riskLevels : List String :=
  ["low", "medium", "high", "critical"]

/-- Claim-side risk comparison: `a ≤ b` in the order low<medium<high<critical
(stated over `riskLevels` members via their position). -/
def specRiskLE (a b : String) : Prop :=
  riskLevels.indexOf a ≤ riskLevels.indexOf b

/-! ## ActionPlanner (internal/domain/service/action_planner.go)

`p.k8s.ValidateCommand` is the injected `validate` function. -/

structure SuggestedAction where
  description : String
  commands : List String
  risk : String
  reversible : Bool
  deriving DecidableEq

/-- Mutable loop state of `validateCommands`.  `maxRiskVal` starts at -1. -/
structure VCState where
  allowed : List String
  maxRiskVal : Int
  maxRisk : String
  denyReason : String
  deniedAll : Bool

/-- The max-risk tracking of one `validateCommands` iteration
(`if ord, ok := riskOrder[v.Risk]; ok && ord > maxRiskVal { … }`). -/
def vcRisk (st : VCState) (risk : String) : VCState :=
  match riskOrder risk with
  | some ord =>
    if (ord : Int) > st.maxRiskVal then
      { st with maxRiskVal := (ord : Int), maxRisk := risk }
    else st
  | none => st

/-- One iteration of the `validateCommands` loop. -/
def vcStep (validate : List String → CommandValidation) (st : VCState)
    (cmd : String) : VCState :=
  let parts := fieldsS cmd
  if parts.isEmpty then st
  else
    let v := validate parts
    if !v.Allowed then { st with denyReason := v.Reason }
    else vcRisk { st with deniedAll := false, allowed := st.allowed ++ [cmd] } v.Risk

/-- Initial loop state of `validateCommands`. -/
def vcInit : VCState :=
  { allowed := [], maxRiskVal := -1, maxRisk := "", denyReason := "", deniedAll := true }

/-- Source `validateCommands`: returns (allowed commands, highest risk seen,
deny reason when ALL commands were denied). -/
def validateCommandsP (validate : List String → CommandValidation)
    (commands : List String) : List String × String × String :=
  let st := commands.foldl (vcStep validate) vcInit
  if st.deniedAll && !commands.isEmpty then ([], "", st.denyReason)
  else (st.allowed, (if st.maxRisk = "" then "low" else st.maxRisk), "")

/-- Source `inferActionType`: guesses the ActionType from the first command. -/
def inferActionType (commands : List String) : String :=
  match commands with
  | [] => "manual"
  | c :: _ =>
    let parts := fieldsS c
    if parts.length < 2 then "kubectl"
    else
      match parts.get? 1 with
      | some "rollout" => "restart"
      | some "scale" => "scale"
      | some "delete" =>
        if decide (parts.length ≥ 3) && (parts.get? 2 = some "pod") then "delete_pod"
        else "kubectl"
      | some "exec" => "exec"
      | _ => "kubectl"

/-- Source `toRiskLevel`. -/
def toRiskLevel (risk : String) : String :=
  if risk = "low" then "low"
  else if risk = "medium" then "medium"
  else if risk = "high" then "high"
  else if risk = "critical" then "critical"
  else "medium"

/-- One iteration of the `Plan` loop over suggestions. -/
def planStep (validate : List String → CommandValidation)
    (analysisID alertID env ns : String) (acc : List Action)
    (suggestion : SuggestedAction) : List Action :=
  let vc := validateCommandsP validate suggestion.commands
  if vc.2.2 ≠ "" then acc
  else if vc.1.isEmpty then acc
  else
    let actionType := inferActionType vc.1
    let riskLevel := toRiskLevel vc.2.1
    let action :=
      ((((NewAction analysisID alertID actionType suggestion.description vc.1 riskLevel).withEnvironment
        env).withNamespace ns).withReversible suggestion.reversible)
    acc ++ [action]

/-- Source `ActionPlanner.Plan`. -/
def plan (validate : List String → CommandValidation)
    (analysisID alertID : String) (suggestions : List SuggestedAction)
    (env ns : String) : List Action :=
  suggestions.foldl (planStep validate analysisID alertID env ns) []

/-- Claim-side: the surviving commands of a suggestion — those whose token
list is nonempty and passes command validation. -/
def survivingCommands (validate : List String → CommandValidation)
    (cmds : List String) : List String :=
  cmds.filter (fun c => !(fieldsS c).isEmpty && (validate (fieldsS c)).Allowed)

/-- Claim-side comparable value of a risk grade (-1 = unrecognized). -/
def riskValue (r : String) : Int :=
  match riskOrder r with
  | some n => (n : Int)
  | none => -1

/-- Claim-side maximum of two risk grades. -/
def riskMax (a b : String) : String :=
  if riskValue b > riskValue a then b else a

/-- Claim-side action risk: the maximum of the surviving commands'
validated risks, starting from (and defaulting to) "low". -/
def specActionRisk (validate : List String → CommandValidation)
    (cmds : List String) : String :=
  (survivingCommands validate cmds).foldl
    (fun acc c => riskMax acc (validate (fieldsS c)).Risk) "low"

/-- Claim-side `Plan`: one (commands, risk) pair per suggestion with a
nonempty surviving-command list. -/
def planSpec (validate : List String → CommandValidation)
    (suggestions : List SuggestedAction) : List (List String × String) :=
  suggestions.filterMap (fun s =>
    let surv := survivingCommands validate s.commands
    if surv.isEmpty then none
    else some (surv, specActionRisk validate s.commands))

/-! ## Analyzer (internal/domain/service/analyzer.go)

The LLM and cluster collaborators are injected as functions.  `analyzeAlert`
additionally returns the number of `Diagnose` invocations it performed,
which is the observable the termination claim is about. -/

structure DiagnosisRequest where
  alertSummary : String
  k8sContext : String
  environment : String
  deriving DecidableEq

structure DiagnosisResult where
  rootCause : String
  severity : String
  explanation : String
  suggestedActions : List SuggestedAction
  needsMoreInfo : Bool
  followUpQueries : List String
  deriving DecidableEq

structure AnalyzerCollab where
  diagnose : DiagnosisRequest → Except String DiagnosisResult
  describeResource : String → String → String → Except String String
  getResource : String → String → Except String String
  getPodLogs : String → String → Except String String
  getEvents : String → String → Except String String
  getClusterContext : Except String String
  modelProvider : String
  modelName : String

def maxFollowUpIterations : Nat := 3

/-- Source `runFollowUpQueries`: one part per query (per-query errors become text
parts), error only when no part was produced. -/
def runFollowUpQueries (c : AnalyzerCollab) (alert : Alert)
    (queries : List String) : Except String String :=
  let parts := queries.map (fun q =>
    match c.describeResource alert.nspace "pod" q with
    | .error e => "query " ++ q ++ ": error: " ++ e
    | .ok desc => "query " ++ q ++ ":\n" ++ desc)
  if parts.isEmpty then .error "no follow-up query results"
  else .ok (joinWith "\n\n" parts)

/-- Source `gatherK8sContext`. -/
def gatherK8sContext (c : AnalyzerCollab) (alert : Alert) :
    Except String String :=
  let parts : List String :=
    if alert.nspace ≠ "" && alert.resource ≠ "" then
      (match c.getResource alert.nspace alert.resource with
       | .ok raw => ["=== Resource ===\n" ++ raw]
       | .error _ => []) ++
      (match c.getPodLogs alert.nspace alert.resource with
       | .ok logs => ["=== Pod Logs ===\n" ++ logs]
       | .error _ => []) ++
      (match c.getEvents alert.nspace alert.resource with
       | .ok ev => ["=== Events ===\n" ++ ev]
       | .error _ => [])
    else []
  if parts.isEmpty then
    match c.getClusterContext with
    | .error e => .error ("no K8s context available: " ++ e)
    | .ok clusterCtx => .ok clusterCtx
  else .ok (joinWith "\n\n" parts)

/-- The follow-up loop of `AnalyzeAlert` (`for i := 0; i < 3 && …`), with
the remaining iteration budget explicit and the running `Diagnose` call
count threaded through.  `diag` is the LLM's `Diagnose` and `runQ` the
`runFollowUpQueries` call the loop body makes. -/
def followUpLoop (diag : DiagnosisRequest → Except String DiagnosisResult)
    (runQ : List String → Except String String) :
    Nat → DiagnosisRequest → DiagnosisResult → Nat →
    DiagnosisRequest × Except String DiagnosisResult × Nat
  | 0, req, result, calls => (req, .ok result, calls)
  | Nat.succ fuel, req, result, calls =>
    if result.needsMoreInfo && !result.followUpQueries.isEmpty then
      match runQ result.followUpQueries with
      | .error qe =>
        ({ req with k8sContext := req.k8sContext ++ "\n" ++ ("follow-up query error: " ++ qe) },
         .ok result, calls)
      | .ok additionalCtx =>
        let req' := { req with k8sContext := req.k8sContext ++ "\n" ++ additionalCtx }
        match diag req' with
        | .error e => (req', .error ("LLM follow-up diagnosis failed: " ++ e), calls + 1)
        | .ok result' => followUpLoop diag runQ fuel req' result' (calls + 1)
    else (req, .ok result, calls)

/-- Continuation of `AnalyzeAlert` after the initial `Diagnose` call, split
out so the call-count bound can be stated over an arbitrary initial
outcome. -/
def analyzeAfterInitial (c : AnalyzerCollab) (alert : Alert)
    (k8sCtx : String) (req : DiagnosisRequest) :
    Except String DiagnosisResult →
    Except String (Analysis × List SuggestedAction) × Nat
  | .error e => (.error ("LLM diagnosis failed: " ++ e), 1)
  | .ok result0 =>
    match followUpLoop c.diagnose (runFollowUpQueries c alert)
        maxFollowUpIterations req result0 1 with
    | (_, .error e, calls) => (.error e, calls)
    | (_, .ok result, calls) =>
      let analysis :=
        ((NewAnalysis alert.id c.modelProvider c.modelName).withDiagnosis
          result.rootCause result.severity result.explanation).withK8sContext k8sCtx
      (.ok (analysis, result.suggestedActions), calls)

/-- Source `Analyzer.AnalyzeAlert`; the second component counts `Diagnose` calls. -/
def analyzeAlert (c : AnalyzerCollab) (alert : Alert) :
    Except String (Analysis × List SuggestedAction) × Nat :=
  let k8sCtx :=
    match gatherK8sContext c alert with
    | .error e => "partial k8s context (error: " ++ e ++ ")"
    | .ok ctx => ctx
  let req : DiagnosisRequest :=
    { alertSummary := "[" ++ alert.severity ++ "] " ++ alert.title ++ ": " ++ alert.description
      k8sContext := k8sCtx, environment := alert.environment }
  analyzeAfterInitial c alert k8sCtx req (c.diagnose req)

/-! ## Orchestrator (HandleAlert / executeAction)

Collaborators whose results are discarded except for the error (every
`repos.Alerts.Update`) are `Alert → Option String`.  Audit writes and
notifications whose failures are only logged never influence any returned
value and are not modelled (see `logAudit` and the `notifyErr` branches in
the source). -/

structure ExecResult where
  stdout : String
  stderr : String
  exitCode : Int
  deriving DecidableEq

structure OrchCollab where
  createAlert : Alert → Except String Alert
  notifyAlert : Alert → Except String String
  updateAlert : Alert → Option String
  analyzer : AnalyzerCollab
  createAnalysis : Analysis → Except String Analysis
  validate : List String → CommandValidation
  policyLookup : String → Except String EnvironmentPolicy
  createAction : Action → Except String Action
  exec : String → List String → Except String ExecResult

/-- The command loop of `executeAction`: outputs collected in order, stop at
the first exec error or non-zero exit. -/
def runCommands (exec : String → List String → Except String ExecResult)
    (ns : String) : List String → List String × Option String
  | [] => ([], none)
  | cmd :: rest =>
    let parts := fieldsS cmd
    match exec ns parts with
    | .error e =>
      (["ERROR: " ++ e], some ("exec command " ++ cmd ++ ": " ++ e))
    | .ok result =>
      if result.exitCode ≠ 0 then
        (["EXIT " ++ toString result.exitCode ++ ": " ++ result.stderr],
         some ("command " ++ cmd ++ " exited with code " ++ toString result.exitCode ++ ": " ++ result.stderr))
      else
        let tail := runCommands exec ns rest
        (result.stdout :: tail.1, tail.2)

/-- Source `Orchestrator.executeAction`.  The audit entry and outcome notification
of the source only log failures and are not modelled. -/
def executeAction (exec : String → List String → Except String ExecResult)
    (action : Action) : Action × Option String :=
  let acting := action.withExecutedAt
  let run := runCommands exec acting.nspace acting.commands
  let output := joinWith "\n" run.1
  match run.2 with
  | some msg => (acting.fail msg, some msg)
  | none => (acting.complete output, none)

/-- The per-action dispositions of the `HandleAlert` loop that leave
`allResolved` untouched: a denied action, or a successfully persisted and
executed auto-action.  (Evaluation errors, approval-pending actions,
create failures and execution failures all clear `allResolved`.) -/
def actionSettled (c : OrchCollab) (env : String) (action : Action) : Bool :=
  match evaluate (c.policyLookup env) env action with
  | (_, some _) => false
  | (decision, none) =>
    if !decision.allowed then true
    else if decision.needsApproval then false
    else
      match c.createAction action with
      | .error _ => false
      | .ok created =>
        match executeAction c.exec created with
        | (_, some _) => false
        | (_, none) => true

/-- Step 6 of `HandleAlert`: fold over the planned actions carrying
`allResolved`. -/
def handleActions (c : OrchCollab) (env : String) :
    List Action → Bool → Bool
  | [], allResolved => allResolved
  | action :: rest, allResolved =>
    match evaluate (c.policyLookup env) env action with
    | (_, some _) => handleActions c env rest false
    | (decision, none) =>
      if !decision.allowed then
        handleActions c env rest allResolved
      else if decision.needsApproval then
        handleActions c env rest false
      else
        match c.createAction action with
        | .error _ => handleActions c env rest false
        | .ok created =>
          match executeAction c.exec created with
          | (_, some _) => handleActions c env rest false
          | (_, none) => handleActions c env rest allResolved

/-- Source `Orchestrator.HandleAlert`.  The returned `Alert` is the orchestrator's
final in-memory alert value, i.e. the argument of the last
`repos.Alerts.Update`; `.error` are exactly the paths on which the Go
function returns a non-nil error. -/
def handleAlert (c : OrchCollab) (alert0 : Alert) : Except String Alert :=
  match c.createAlert alert0 with
  | .error e => .error ("save alert: " ++ e)
  | .ok saved =>
    match c.notifyAlert saved with
    | .error e => .error ("notify alert: " ++ e)
    | .ok threadID =>
      let alert1 := saved.withThreadID threadID
      match c.updateAlert alert1 with
      | some e => .error ("update alert thread ID: " ++ e)
      | none =>
        let alert2 := alert1.withStatus "analyzing"
        match c.updateAlert alert2 with
        | some e => .error ("update alert status: " ++ e)
        | none =>
          match (analyzeAlert c.analyzer alert2).1 with
          | .error e => .error ("analyze alert: " ++ e)
          | .ok res =>
            match c.createAnalysis res.1 with
            | .error e => .error ("save analysis: " ++ e)
            | .ok analysisSaved =>
              let actions := plan c.validate analysisSaved.id alert2.id res.2
                alert2.environment alert2.nspace
              let alert3 := alert2.withStatus "acting"
              let allResolved := handleActions c alert3.environment actions true
              if allResolved then .ok (alert3.withStatus "resolved")
              else .ok alert3

/-- Invariant tying the `validateCommands` loop state after a processed
prefix to the claim-side characterization. -/
def vcGood (validate : List String → CommandValidation)
    (processed : List String) (st : VCState) : Prop :=
  st.allowed = survivingCommands validate processed ∧
  st.deniedAll = st.allowed.isEmpty ∧
  st.maxRiskVal = riskValue st.maxRisk ∧
  (if st.maxRisk = "" then "low" else st.maxRisk) = specActionRisk validate processed

/-! ## Concrete inputs used by witnesses and counterexamples -/

/-- A whitelist matching the repository's test fixture. -/
def wEx : Whitelist :=
  NewWhitelist
    { ReadOnly := ["get", "list", "describe", "logs"]
      Exec := ["ls", "cat", "ps", "df"]
      Remediation := ["kubectl rollout restart", "kubectl scale"]
      BlockedNamespaces := ["kube-system", "kube-public"] }

def actionLowEx : Action :=
  NewAction "aid" "alid" "kubectl" "describe pod"
    ["kubectl describe pod foo"] "low"

def policyAutoFixEx : EnvironmentPolicy :=
  { id := "", environment := "dev", mode := "auto_fix", maxAutoRisk := "medium"
    approvers := ["alice"], namespaces := [], enabled := true }

def policyDisabledEx : EnvironmentPolicy :=
  { id := "", environment := "prod", mode := "auto_fix", maxAutoRisk := "high"
    approvers := [], namespaces := [], enabled := false }

def alertEx : Alert :=
  { id := "alert-1", externalID := "", fingerprint := "", source := "grafana"
    status := "received", severity := "critical", title := "High CPU"
    description := "CPU > 90", environment := "prod", nspace := "default"
    resource := "app-pod", threadID := "" }

def sugEx : SuggestedAction :=
  { description := "restart", commands := ["kubectl rollout restart deployment/app"]
    risk := "low", reversible := true }

def analyzerEx : AnalyzerCollab :=
  { diagnose := fun _ => .ok
      { rootCause := "OOM", severity := "critical", explanation := "memory exhausted"
        suggestedActions := [sugEx], needsMoreInfo := false, followUpQueries := [] }
    describeResource := fun _ _ _ => .ok "desc"
    getResource := fun _ _ => .ok "pod info"
    getPodLogs := fun _ _ => .ok "logs"
    getEvents := fun _ _ => .ok "events"
    getClusterContext := .ok "cluster"
    modelProvider := "ollama", modelName := "llama3" }

/-- Orchestrator collaborators for which the pipeline prefix always
succeeds, every command validates as low risk, and the policy is disabled
(so every planned action is denied). -/
def collabDeniedEx : OrchCollab :=
  { createAlert := fun a => .ok a
    notifyAlert := fun _ => .ok "thread-1"
    updateAlert := fun _ => none
    analyzer := analyzerEx
    createAnalysis := fun a => .ok a
    validate := fun _ => { Allowed := true, Reason := "ok", Risk := "low" }
    policyLookup := fun _ => .ok policyDisabledEx
    createAction := fun a => .ok a
    exec := fun _ _ => .ok { stdout := "done", stderr := "", exitCode := 0 } }

/-- The alert value right before the action loop of `handleAlert` on
`collabDeniedEx`/`alertEx`. -/
def alert2Ex : Alert := (alertEx.withThreadID "thread-1").withStatus "analyzing"

/-- The gathered context `analyzeAlert` produces on `analyzerEx`/`alert2Ex`. -/
def k8sCtxEx : String :=
  "=== Resource ===\npod info" ++ "\n\n" ++
    ("=== Pod Logs ===\nlogs" ++ "\n\n" ++ "=== Events ===\nevents")

/-- The analysis `analyzeAlert` produces on `analyzerEx`/`alert2Ex`. -/
def analysisEx : Analysis :=
  ((NewAnalysis "alert-1" "ollama" "llama3").withDiagnosis
    "OOM" "critical" "memory exhausted").withK8sContext k8sCtxEx

/-- The actions `handleAlert` plans on `collabDeniedEx`/`alertEx`. -/
def actionsDeniedEx : List Action :=
  plan collabDeniedEx.validate "" alert2Ex.id [sugEx] alert2Ex.environment alert2Ex.nspace

/-- A terminal (resolved) alert. -/
def alertResolvedEx : Alert := { alertEx with status := "resolved" }

/-- A terminal (completed) action. -/
def actionCompletedEx : Action :=
  (NewAction "an" "al" "kubectl" "d" [] "low").withStatus "completed"

/-- A cluster-exec stub that always fails. -/
def execBoom : String → List String → Except String ExecResult :=
  fun _ _ => .error "boom"

/-- A cluster-exec stub that always succeeds with a fixed result. -/
def execOk : String → List String → Except String ExecResult :=
  fun _ _ => .ok { stdout := "out", stderr := "", exitCode := 0 }

def actionRebootEx : Action :=
  (NewAction "an" "al" "exec" "reboot host" ["reboot"] "high").withNamespace "default"

/-- A two-message conversation thread. -/
def threadEx : ConversationThread :=
  ((NewConversationThread "alert-1" "t" "c").addMessage "user" "hello" "u1").addMessage
    "assistant" "hi" "bot"

/-- Analyzer collaborators whose diagnosis always asks for more
information, to exercise the follow-up bound. -/
def analyzerLoopEx : AnalyzerCollab :=
  { diagnose := fun _ => .ok
      { rootCause := "unknown", severity := "warning", explanation := ""
        suggestedActions := [], needsMoreInfo := true, followUpQueries := ["describe app-pod"] }
    describeResource := fun _ _ _ => .ok "desc"
    getResource := fun _ _ => .ok "pod info"
    getPodLogs := fun _ _ => .ok "logs"
    getEvents := fun _ _ => .ok "events"
    getClusterContext := .ok "cluster"
    modelProvider := "ollama", modelName := "llama3" }

/-- A diagnosis result that keeps asking for more information. -/
def needyResultEx : DiagnosisResult :=
  { rootCause := "unknown", severity := "warning", explanation := ""
    suggestedActions := [], needsMoreInfo := true
    followUpQueries := ["describe app-pod"] }

/-- A concrete diagnosis request. -/
def reqEx : DiagnosisRequest :=
  { alertSummary := "summary", k8sContext := "ctx", environment := "prod" }

/-! ### Helper lemmas about substring containment -/

theorem infixMap {x y : List Char} (f : Char → Char) (h : x <:+: y) :
    x.map f <:+: y.map f := by
  obtain ⟨s, t, rfl⟩ := h
  exact ⟨s.map f, t.map f, by simp⟩

theorem infixAppendLeft {x l r : List Char} (h : x <:+: l) : x <:+: l ++ r := by
  obtain ⟨s, t, rfl⟩ := h
  exact ⟨s, t ++ r, by simp⟩

theorem infixAppendRight {x l r : List Char} (h : x <:+: r) : x <:+: l ++ r := by
  obtain ⟨s, t, rfl⟩ := h
  exact ⟨l ++ s, t, by simp⟩

theorem data_append (a b : String) : (a ++ b).data = a.data ++ b.data := rfl

/-- A member of the joined token list is an infix of the join. -/
theorem mem_infix_joinWith {tok : String} :
    ∀ {cmds : List String}, tok ∈ cmds → tok.data <:+: (joinWith " " cmds).data := by
  intro cmds
  induction cmds with
  | nil => intro h; cases h
  | cons x xs ih =>
    intro h
    match xs, h with
    | [], h =>
      rw [List.mem_singleton.mp h]
      exact ⟨[], [], by simp [joinWith]⟩
    | y :: ys, h =>
      rcases List.mem_cons.mp h with h | h
      · subst h
        show tok.data <:+: (tok ++ " " ++ joinWith " " (y :: ys)).data
        rw [data_append, data_append]
        exact infixAppendLeft (infixAppendLeft ⟨[], [], by simp⟩)
      · show tok.data <:+: (x ++ " " ++ joinWith " " (y :: ys)).data
        rw [data_append]
        exact infixAppendRight (ih h)

/-- If a pattern whose characters are fixed by `Char.toLower` occurs in `s`,
it also occurs in the lowercased `s`. -/
theorem containsS_toLower_of_fixed {s pat : String}
    (hfix : pat.data.map Char.toLower = pat.data)
    (h : pat.data <:+: s.data) : containsS (toLowerS s) pat = true := by
  have hm := infixMap Char.toLower h
  rw [hfix] at hm
  exact decide_eq_true hm

/-- A `true` result of `IsExecAllowed` implies both containment scans on the
lowercased full command came back clean. -/
theorem isExecAllowed_true_clean {w : Whitelist} {s : String}
    (h : w.IsExecAllowed s = true) :
    dangerousPatterns.any (fun pat => containsS (toLowerS s) pat) = false ∧
    sensitivePathFragments.any (fun frag => containsS (toLowerS s) frag) = false := by
  unfold Whitelist.IsExecAllowed at h
  rcases hf : fieldsS s with _ | ⟨binary, args⟩ <;> rw [hf] at h
  · exact absurd h (by simp)
  · simp only [Bool.and_eq_true, Bool.not_eq_true'] at h
    exact ⟨h.1.1.2, h.1.2⟩

/-- The full joined command is scanned clean whenever `IsExecAllowed` says yes. -/
theorem isExecAllowed_eq_false {w : Whitelist} {command : List String}
    (h : (∃ pat ∈ claimInjectionPatterns,
            pat.data <:+: (joinWith " " command).data) ∨
         (∃ tok ∈ command, ∃ frag ∈ sensitivePathFragments,
            containsS (toLowerS tok) frag = true)) :
    w.IsExecAllowed (joinWith " " command) = false := by
  set joined := joinWith " " command with hj
  rcases hx : w.IsExecAllowed joined with _ | _
  · rfl
  · exfalso
    obtain ⟨hdanger, hsens⟩ := isExecAllowed_true_clean hx
    rcases h with ⟨pat, hmem, hinf⟩ | ⟨tok, htok, frag, hfrag, hcont⟩
    · have key : pat ∈ dangerousPatterns ∧ pat.data.map Char.toLower = pat.data := by
        fin_cases hmem <;> exact ⟨by decide, by decide⟩
      have : dangerousPatterns.any (fun p => containsS (toLowerS joined) p) = true :=
        List.any_eq_true.mpr ⟨pat, key.1, containsS_toLower_of_fixed key.2 hinf⟩
      rw [this] at hdanger
      simp at hdanger
    · have hinf1 : frag.data <:+: (toLowerS tok).data := of_decide_eq_true hcont
      have hinf2 : tok.data <:+: joined.data := mem_infix_joinWith htok
      have hinf3 : (toLowerS tok).data <:+: (toLowerS joined).data :=
        infixMap Char.toLower hinf2
      have : sensitivePathFragments.any
          (fun f => containsS (toLowerS joined) f) = true :=
        List.any_eq_true.mpr ⟨frag, hfrag, decide_eq_true (hinf1.trans hinf3)⟩
      rw [this] at hsens
      simp at hsens

/-! ## C1 -/

/-- C1: for every command token list whose joined text contains one of the
shell-injection patterns `$(`, backtick, `|`, `;`, `&&`, `||`, or one of
whose tokens references a sensitive path fragment, both
`Whitelist.ValidateExecCommand` and `Executor.ValidateCommand` return
allowed = false — regardless of whether the binary is exec-whitelisted. -/
theorem C1_validate_denies_injection (w : Whitelist) (command : List String)
    (h : (∃ pat ∈ claimInjectionPatterns,
            pat.data <:+: (joinWith " " command).data) ∨
         (∃ tok ∈ command, ∃ frag ∈ sensitivePathFragments,
            containsS (toLowerS tok) frag = true)) :
    (w.ValidateExecCommand command).1 = false ∧
    (ExecutorValidateCommand w command).Allowed = false := by
  have hexec : w.IsExecAllowed (joinWith " " command) = false :=
    isExecAllowed_eq_false h
  have h1 : (w.ValidateExecCommand command).1 = false := by
    unfold Whitelist.ValidateExecCommand
    by_cases hemp : command.isEmpty
    · simp [hemp]
    · simp [hemp, hexec]
  refine ⟨h1, ?_⟩
  unfold ExecutorValidateCommand
  by_cases hemp : command.isEmpty
  · simp [hemp]
  · simp [hemp, h1]

/-- C1 witness: `cat /etc/shadow` — the binary `cat` IS in the exec set of
the test-fixture whitelist, the token `/etc/shadow` is a sensitive path,
and both validators deny. -/
theorem C1_witness :
    ((∃ tok ∈ ["cat", "/etc/shadow"], ∃ frag ∈ sensitivePathFragments,
        containsS (toLowerS tok) frag = true) ∧
     wEx.exec.contains (toLowerS "cat") = true) ∧
    (wEx.ValidateExecCommand ["cat", "/etc/shadow"]).1 = false ∧
    (ExecutorValidateCommand wEx ["cat", "/etc/shadow"]).Allowed = false := by
  have hyp : ∃ tok ∈ ["cat", "/etc/shadow"], ∃ frag ∈ sensitivePathFragments,
      containsS (toLowerS tok) frag = true := by
    refine ⟨"/etc/shadow", by decide, "/etc/shadow", by decide, by decide⟩
  have happ := C1_validate_denies_injection wEx ["cat", "/etc/shadow"] (.inr hyp)
  exact ⟨⟨hyp, by decide⟩, happ.1, happ.2⟩

/-! ## C4 -/

/-- C4 counterexample: the transition operations are unguarded — a resolved
alert moved with `WithStatus` leaves the terminal set, and a completed
action leaves it through `WithStatus`, `Approve` and `WithExecutedAt`. -/
theorem C4_counterexample :
    alertResolvedEx.isTerminal = true ∧
    (alertResolvedEx.withStatus "received").isTerminal = false ∧
    actionCompletedEx.isTerminal = true ∧
    (actionCompletedEx.withStatus "planned").isTerminal = false ∧
    (actionCompletedEx.approve "bob").isTerminal = false ∧
    actionCompletedEx.withExecutedAt.isTerminal = false := by
  decide

/-- C4 amended: for every Alert and Action in a terminal status, the
transitions that target a terminal status — `Resolve` on alerts, and
`Reject`/`Complete`/`Fail` on actions — keep the value inside the terminal
set; `WithStatus`, `Approve` and `WithExecutedAt` carry no such guarantee. -/
theorem C4_amended_terminal_preserving (alert : Alert) (action : Action)
    (rejectedBy output errMsg : String)
    (ha : alert.isTerminal = true) (hb : action.isTerminal = true) :
    alert.resolve.isTerminal = true ∧
    (action.reject rejectedBy).isTerminal = true ∧
    (action.complete output).isTerminal = true ∧
    (action.fail errMsg).isTerminal = true := by
  refine ⟨rfl, rfl, rfl, rfl⟩

/-- C4 witness: the amended theorem applied to a concrete resolved alert
and completed action. -/
theorem C4_witness :
    (alertResolvedEx.isTerminal = true ∧ actionCompletedEx.isTerminal = true) ∧
    (alertResolvedEx.resolve.isTerminal = true ∧
     (actionCompletedEx.reject "alice").isTerminal = true ∧
     (actionCompletedEx.complete "done").isTerminal = true ∧
     (actionCompletedEx.fail "oops").isTerminal = true) :=
  ⟨⟨by decide, by decide⟩,
   C4_amended_terminal_preserving alertResolvedEx actionCompletedEx
     "alice" "done" "oops" (by decide) (by decide)⟩

/-! ## C5 -/

/-- C5: when the policy lookup fails, `Evaluate` returns the fail-safe
decision (allowed, needs approval, never auto-execute) and a nil error —
the lookup error is not propagated. -/
theorem C5_lookup_failure_fail_safe (err environment : String) (action : Action) :
    (evaluate (.error err) environment action).1.allowed = true ∧
    (evaluate (.error err) environment action).1.needsApproval = true ∧
    (evaluate (.error err) environment action).1.autoExecute = false ∧
    (evaluate (.error err) environment action).2 = none :=
  ⟨rfl, rfl, rfl, rfl⟩

/-! ## C6 -/

/-- C6: evaluating a disabled policy yields allowed = false, with no
approval request and no auto-execution, for every environment and action. -/
theorem C6_disabled_policy_denies (p : EnvironmentPolicy)
    (environment : String) (action : Action) (hd : p.enabled = false) :
    (evaluate (.ok p) environment action).1.allowed = false ∧
    (evaluate (.ok p) environment action).1.needsApproval = false ∧
    (evaluate (.ok p) environment action).1.autoExecute = false := by
  simp [evaluate, hd]

/-- C6 witness: the disabled prod policy denies a low-risk action. -/
theorem C6_witness :
    policyDisabledEx.enabled = false ∧
    (evaluate (.ok policyDisabledEx) "prod" actionLowEx).1.allowed = false ∧
    (evaluate (.ok policyDisabledEx) "prod" actionLowEx).1.needsApproval = false ∧
    (evaluate (.ok policyDisabledEx) "prod" actionLowEx).1.autoExecute = false := by
  have h := C6_disabled_policy_denies policyDisabledEx "prod" actionLowEx (by decide)
  exact ⟨by decide, h.1, h.2.1, h.2.2⟩

/-! ## C3 -/

/-- On recognized risk grades, `isRiskAcceptable` is exactly the claim's
positional order low < medium < high < critical. -/
theorem riskAcceptable_iff {a b : String} (ha : a ∈ riskLevels)
    (hb : b ∈ riskLevels) :
    isRiskAcceptable a b = true ↔ specRiskLE a b := by
  fin_cases ha <;> fin_cases hb <;> simp only [specRiskLE] <;> decide

/-- C3: with an enabled policy and recognized risk grades, the decision has
autoExecute exactly when the action risk is within the policy's max
auto-risk and the mode is auto_fix or warn_auto (so approval_required and
unknown modes never auto-execute); and an unrecognized risk level on
either side is never acceptable. -/
theorem C3_autoExecute_iff (p : EnvironmentPolicy) (environment : String)
    (action : Action) (hen : p.enabled = true)
    (hrisk : action.risk ∈ riskLevels) (hmax : p.maxAutoRisk ∈ riskLevels) :
    ((evaluate (.ok p) environment action).1.autoExecute = true ↔
      (specRiskLE action.risk p.maxAutoRisk ∧
        (p.mode = "auto_fix" ∨ p.mode = "warn_auto"))) ∧
    (∀ r m : String, riskOrder r = none ∨ riskOrder m = none →
      isRiskAcceptable r m = false) := by
  refine ⟨?_, ?_⟩
  · have hiff := riskAcceptable_iff hrisk hmax
    by_cases h1 : p.mode = "auto_fix"
    · by_cases hacc : isRiskAcceptable action.risk p.maxAutoRisk = true
      · have hdec : (evaluate (.ok p) environment action).1.autoExecute = true := by
          simp [evaluate, hen, h1, hacc]
        rw [hdec]
        exact iff_of_true rfl ⟨hiff.mp hacc, .inl h1⟩
      · have hdec : (evaluate (.ok p) environment action).1.autoExecute = false := by
          simp [evaluate, hen, h1, hacc]
        rw [hdec]
        refine iff_of_false (by simp) ?_
        rintro ⟨hle, _⟩
        exact hacc (hiff.mpr hle)
    · by_cases h2 : p.mode = "warn_auto"
      · by_cases hacc : isRiskAcceptable action.risk p.maxAutoRisk = true
        · have hdec : (evaluate (.ok p) environment action).1.autoExecute = true := by
            simp [evaluate, hen, h1, h2, hacc]
          rw [hdec]
          exact iff_of_true rfl ⟨hiff.mp hacc, .inr h2⟩
        · have hdec : (evaluate (.ok p) environment action).1.autoExecute = false := by
            simp [evaluate, hen, h1, h2, hacc]
          rw [hdec]
          refine iff_of_false (by simp) ?_
          rintro ⟨hle, _⟩
          exact hacc (hiff.mpr hle)
      · have hdec : (evaluate (.ok p) environment action).1.autoExecute = false := by
          by_cases h3 : p.mode = "approval_required" <;>
            simp [evaluate, hen, h1, h2, h3]
        rw [hdec]
        refine iff_of_false (by simp) ?_
        rintro ⟨_, h | h⟩
        · exact h1 h
        · exact h2 h
  · rintro r m (h | h) <;> cases hm : riskOrder m <;>
      cases hr : riskOrder r <;> simp_all [isRiskAcceptable]

/-- C3 witness: enabled auto_fix policy with maxAutoRisk medium and a
low-risk action — the iff holds at this concrete input. -/
theorem C3_witness :
    (policyAutoFixEx.enabled = true ∧ actionLowEx.risk ∈ riskLevels ∧
      policyAutoFixEx.maxAutoRisk ∈ riskLevels) ∧
    ((evaluate (.ok policyAutoFixEx) "dev" actionLowEx).1.autoExecute = true ↔
      (specRiskLE actionLowEx.risk policyAutoFixEx.maxAutoRisk ∧
        (policyAutoFixEx.mode = "auto_fix" ∨ policyAutoFixEx.mode = "warn_auto"))) := by
  have h := C3_autoExecute_iff policyAutoFixEx "dev" actionLowEx
    (by decide) (by decide) (by decide)
  exact ⟨⟨by decide, by decide, by decide⟩, h.1⟩

/-! ## C8 -/

/-- The follow-up loop performs at most `fuel` additional `Diagnose` calls. -/
theorem followUpLoop_calls_le
    (diag : DiagnosisRequest → Except String DiagnosisResult)
    (runQ : List String → Except String String) :
    ∀ (fuel : Nat) (req : DiagnosisRequest) (result : DiagnosisResult)
      (calls : Nat),
    (followUpLoop diag runQ fuel req result calls).2.2 ≤ calls + fuel := by
  intro fuel
  induction fuel with
  | zero =>
    intro req result calls
    simp [followUpLoop]
  | succ f ih =>
    intro req result calls
    by_cases hc : (result.needsMoreInfo && !result.followUpQueries.isEmpty) = true
    · rcases hrun : runQ result.followUpQueries with qe | additionalCtx
      · simp only [followUpLoop, hc, if_true, hrun]
        omega
      · rcases hdiag : diag
            { req with k8sContext := req.k8sContext ++ "\n" ++ additionalCtx } with e | result'
        · simp only [followUpLoop, hc, if_true, hrun, hdiag]
          omega
        · have hrec := ih
            { req with k8sContext := req.k8sContext ++ "\n" ++ additionalCtx }
            result' (calls + 1)
          simp only [followUpLoop, hc, if_true, hrun, hdiag]
          omega
    · simp [followUpLoop, hc]

/-- The continuation after the initial call reports at most
1 + maxFollowUpIterations calls. -/
theorem analyzeAfterInitial_calls_le (c : AnalyzerCollab) (alert : Alert)
    (k8sCtx : String) (req : DiagnosisRequest)
    (r : Except String DiagnosisResult) :
    (analyzeAfterInitial c alert k8sCtx req r).2 ≤ 1 + maxFollowUpIterations := by
  rcases r with e | result0
  · simp [analyzeAfterInitial]
  · have h := followUpLoop_calls_le c.diagnose (runFollowUpQueries c alert)
      maxFollowUpIterations req result0 1
    rcases hloop : followUpLoop c.diagnose (runFollowUpQueries c alert)
        maxFollowUpIterations req result0 1 with ⟨req', res, calls⟩
    rw [hloop] at h
    simp only [Prod.snd] at h
    rcases res with e | result <;> simp [analyzeAfterInitial, hloop] <;> omega

/-- C8: `AnalyzeAlert` invokes `Diagnose` at most 4 times
(1 + maxFollowUpIterations = 1 + 3), whatever the diagnosis results are;
and when the follow-up query runner reports an error, the loop appends the
error text to the gathered context and stops with no further diagnosis
call. -/
theorem C8_diagnose_call_bound (c : AnalyzerCollab) (alert : Alert) :
    (analyzeAlert c alert).2 ≤ 4 ∧
    (∀ (diag : DiagnosisRequest → Except String DiagnosisResult)
        (runQ : List String → Except String String)
        (fuel : Nat) (req : DiagnosisRequest) (result : DiagnosisResult)
        (calls : Nat) (qe : String),
      result.needsMoreInfo = true → result.followUpQueries ≠ [] →
      runQ result.followUpQueries = .error qe →
      followUpLoop diag runQ (fuel + 1) req result calls =
        ({ req with k8sContext := req.k8sContext ++ "\n" ++ ("follow-up query error: " ++ qe) },
         .ok result, calls)) := by
  constructor
  · exact analyzeAfterInitial_calls_le c alert _ _ _
  · intro diag runQ fuel req result calls qe hmore hne hrun
    have hc : (result.needsMoreInfo && !result.followUpQueries.isEmpty) = true := by
      simp [hmore, hne]
    simp only [followUpLoop, hc, if_true, hrun]

/-- C8 witness: with a diagnosis stub that always asks for more information
the bound holds, and an erroring follow-up runner stops the loop at once. -/
theorem C8_witness :
    (analyzeAlert analyzerLoopEx alertEx).2 ≤ 4 ∧
    (needyResultEx.needsMoreInfo = true ∧ needyResultEx.followUpQueries ≠ [] ∧
      followUpLoop analyzerLoopEx.diagnose (fun _ => .error "boom") 3
          reqEx needyResultEx 1 =
        ({ reqEx with k8sContext := reqEx.k8sContext ++ "\n" ++
            ("follow-up query error: " ++ "boom") },
         .ok needyResultEx, 1)) := by
  refine ⟨(C8_diagnose_call_bound analyzerLoopEx alertEx).1, rfl, by decide, ?_⟩
  exact (C8_diagnose_call_bound analyzerLoopEx alertEx).2 analyzerLoopEx.diagnose
    (fun _ => .error "boom") 2 reqEx needyResultEx 1 "boom" rfl (by decide) rfl

/-! ## C7 -/

theorem riskOrder_some_val {r : String} {ord : Nat}
    (h : riskOrder r = some ord) : riskValue r = (ord : Int) := by
  simp [riskValue, h]

theorem riskOrder_none_val {r : String} (h : riskOrder r = none) :
    riskValue r = -1 := by
  simp [riskValue, h]

theorem riskOrder_some_ne_empty {r : String} {ord : Nat}
    (h : riskOrder r = some ord) : r ≠ "" := by
  intro he
  rw [he] at h
  have hnone : riskOrder "" = none := by decide
  rw [hnone] at h
  exact Option.noConfusion h

theorem riskOrder_zero_eq_low {r : String} (h : riskOrder r = some 0) :
    r = "low" := by
  unfold riskOrder at h
  split_ifs at h with h1 h2 h3 h4
  · exact h1
  · exact absurd (Option.some.inj h) (by decide)
  · exact absurd (Option.some.inj h) (by decide)
  · exact absurd (Option.some.inj h) (by decide)

theorem riskValue_ge_neg_one (r : String) : -1 ≤ riskValue r := by
  unfold riskValue
  cases riskOrder r with
  | none => simp
  | some n => simp; omega

/-- Appending one command to the processed list extends the surviving list
by the command exactly when it validates. -/
theorem surv_append (validate : List String → CommandValidation)
    (l : List String) (c : String) :
    survivingCommands validate (l ++ [c]) =
      survivingCommands validate l ++
        (if (!(fieldsS c).isEmpty && (validate (fieldsS c)).Allowed) = true
         then [c] else []) := by
  unfold survivingCommands
  rw [List.filter_append]
  congr 1
  by_cases hpc : (!(fieldsS c).isEmpty && (validate (fieldsS c)).Allowed) = true
  · rw [if_pos hpc]
    simp [List.filter, hpc]
  · rw [if_neg hpc]
    simp only [Bool.not_eq_true] at hpc
    simp [List.filter, hpc]

theorem specActionRisk_append_keep (validate : List String → CommandValidation)
    (l : List String) (c : String)
    (h : (!(fieldsS c).isEmpty && (validate (fieldsS c)).Allowed) = true) :
    specActionRisk validate (l ++ [c]) =
      riskMax (specActionRisk validate l) (validate (fieldsS c)).Risk := by
  simp [specActionRisk, surv_append, h, List.foldl_append]

theorem specActionRisk_append_drop (validate : List String → CommandValidation)
    (l : List String) (c : String)
    (h : (!(fieldsS c).isEmpty && (validate (fieldsS c)).Allowed) ≠ true) :
    specActionRisk validate (l ++ [c]) = specActionRisk validate l := by
  simp [specActionRisk, surv_append, h]

/-- The claim-side maximum keeps its left argument when the right one is
not strictly larger. -/
theorem riskMax_left {a b : String} (h : ¬ riskValue b > riskValue a) :
    riskMax a b = a := by
  unfold riskMax
  rw [if_neg h]

theorem riskMax_right {a b : String} (h : riskValue b > riskValue a) :
    riskMax a b = b := by
  unfold riskMax
  rw [if_pos h]

/-- Source `vcRisk` leaves the survivors alone and computes the claim-side
`riskMax` on the defaulted max-risk string. -/
theorem vcRisk_invariant {st : VCState} {risk : String}
    (h3 : st.maxRiskVal = riskValue st.maxRisk) :
    (vcRisk st risk).allowed = st.allowed ∧
    (vcRisk st risk).deniedAll = st.deniedAll ∧
    (vcRisk st risk).maxRiskVal = riskValue (vcRisk st risk).maxRisk ∧
    (if (vcRisk st risk).maxRisk = "" then "low" else (vcRisk st risk).maxRisk) =
      riskMax (if st.maxRisk = "" then "low" else st.maxRisk) risk := by
  rcases hord : riskOrder risk with _ | ord
  · have heq : vcRisk st risk = st := by
      unfold vcRisk
      rw [hord]
    rw [heq]
    refine ⟨rfl, rfl, h3, ?_⟩
    rw [riskMax_left]
    rw [riskOrder_none_val hord]
    have := riskValue_ge_neg_one (if st.maxRisk = "" then "low" else st.maxRisk)
    omega
  · have heq : vcRisk st risk =
        (if (ord : Int) > st.maxRiskVal then
          { st with maxRiskVal := (ord : Int), maxRisk := risk }
         else st) := by
      unfold vcRisk
      rw [hord]
    rw [heq]
    by_cases hgt : (ord : Int) > st.maxRiskVal
    · rw [if_pos hgt]
      have hne := riskOrder_some_ne_empty hord
      refine ⟨rfl, rfl, ?_, ?_⟩
      · show (ord : Int) = riskValue risk
        rw [riskOrder_some_val hord]
      · show (if risk = "" then "low" else risk) =
          riskMax (if st.maxRisk = "" then "low" else st.maxRisk) risk
        rw [if_neg hne]
        by_cases hemp : st.maxRisk = ""
        · rw [hemp]
          have hif : (if ("" : String) = "" then "low" else "") = "low" := by decide
          rw [hif]
          rcases Nat.eq_zero_or_pos ord with hz | hpos
          · subst hz
            have hl : risk = "low" := riskOrder_zero_eq_low hord
            rw [hl, riskMax_left (by decide)]
          · have hcmp : riskValue risk > riskValue "low" := by
              rw [riskOrder_some_val hord]
              have hlv : riskValue "low" = 0 := by decide
              rw [hlv]
              exact_mod_cast hpos
            rw [riskMax_right hcmp]
        · rw [if_neg hemp]
          have hcmp : riskValue risk > riskValue st.maxRisk := by
            rw [riskOrder_some_val hord, ← h3]
            exact hgt
          rw [riskMax_right hcmp]
    · rw [if_neg hgt]
      refine ⟨rfl, rfl, h3, ?_⟩
      by_cases hemp : st.maxRisk = ""
      · exfalso
        rw [h3, hemp] at hgt
        have hnv : riskValue "" = -1 := by decide
        rw [hnv] at hgt
        omega
      · rw [riskMax_left]
        rw [riskOrder_some_val hord, if_neg hemp, ← h3]
        exact hgt

/-- One step of the `validateCommands` loop preserves the invariant. -/
theorem vcStep_good (validate : List String → CommandValidation)
    {processed : List String} {st : VCState} (c : String)
    (h : vcGood validate processed st) :
    vcGood validate (processed ++ [c]) (vcStep validate st c) := by
  obtain ⟨h1, h2, h3, h4⟩ := h
  unfold vcStep
  by_cases hp : (fieldsS c).isEmpty
  · have hcond : (!(fieldsS c).isEmpty && (validate (fieldsS c)).Allowed) ≠ true := by
      simp [hp]
    rw [if_pos hp]
    exact ⟨by rw [h1, surv_append, if_neg hcond, List.append_nil],
      h2, h3, by rw [h4, specActionRisk_append_drop validate processed c hcond]⟩
  · rw [if_neg hp]
    by_cases hv : (validate (fieldsS c)).Allowed
    · have hcond : (!(fieldsS c).isEmpty && (validate (fieldsS c)).Allowed) = true := by
        simp [hp, hv]
      have hsurv : survivingCommands validate (processed ++ [c]) =
          survivingCommands validate processed ++ [c] := by
        rw [surv_append, if_pos hcond]
      have hspec := specActionRisk_append_keep validate processed c hcond
      have hv' : (validate (fieldsS c)).Allowed = true := hv
      simp only [hv', Bool.not_true, Bool.false_eq_true, if_false]
      obtain ⟨g1, g2, g3, g4⟩ :=
        @vcRisk_invariant { st with deniedAll := false, allowed := st.allowed ++ [c] }
          ((validate (fieldsS c)).Risk) h3
      refine ⟨?_, ?_, g3, ?_⟩
      · rw [g1]
        show st.allowed ++ [c] = _
        rw [h1, hsurv]
      · rw [g2, g1]
        show false = (st.allowed ++ [c]).isEmpty
        simp
      · rw [g4, hspec]
        show riskMax (if st.maxRisk = "" then "low" else st.maxRisk) _ = _
        rw [h4]
    · have hcond : (!(fieldsS c).isEmpty && (validate (fieldsS c)).Allowed) ≠ true := by
        simp [hv]
      have hv' : (validate (fieldsS c)).Allowed = false := by
        simpa using hv
      simp only [hv', Bool.not_false, if_true]
      exact ⟨by rw [h1, surv_append, if_neg hcond, List.append_nil],
        h2, h3, by rw [h4, specActionRisk_append_drop validate processed c hcond]⟩

/-- The full `validateCommands` fold preserves the invariant. -/
theorem vcFold_good (validate : List String → CommandValidation) :
    ∀ (cmds processed : List String) (st : VCState),
    vcGood validate processed st →
    vcGood validate (processed ++ cmds) (cmds.foldl (vcStep validate) st) := by
  intro cmds
  induction cmds with
  | nil => intro processed st h; simpa using h
  | cons c rest ih =>
    intro processed st h
    have h1 := vcStep_good validate c h
    have h2 := ih (processed ++ [c]) (vcStep validate st c) h1
    simpa using h2

theorem vcInit_good (validate : List String → CommandValidation) :
    vcGood validate [] vcInit := by
  refine ⟨rfl, rfl, by decide, rfl⟩

/-- Source `validateCommands` returns exactly the surviving commands; when some
command survives it reports no deny reason, and its risk output is the
claim-side maximum. -/
theorem validateCommandsP_spec (validate : List String → CommandValidation)
    (cmds : List String) :
    (validateCommandsP validate cmds).1 = survivingCommands validate cmds ∧
    (survivingCommands validate cmds ≠ [] →
      (validateCommandsP validate cmds).2.2 = "" ∧
      (validateCommandsP validate cmds).2.1 = specActionRisk validate cmds) := by
  have hg := vcFold_good validate cmds [] vcInit (vcInit_good validate)
  rw [List.nil_append] at hg
  obtain ⟨h1, h2, h3, h4⟩ := hg
  unfold validateCommandsP
  by_cases hd : (cmds.foldl (vcStep validate) vcInit).deniedAll && !cmds.isEmpty
  · rw [if_pos hd]
    rw [Bool.and_eq_true] at hd
    have hda : (cmds.foldl (vcStep validate) vcInit).deniedAll = true := hd.1
    rw [hda] at h2
    have hempty : survivingCommands validate cmds = [] := by
      rw [← h1]
      exact List.isEmpty_iff.mp h2.symm
    exact ⟨hempty.symm, fun hne => absurd hempty hne⟩
  · rw [if_neg hd]
    exact ⟨h1, fun _ => ⟨rfl, h4⟩⟩

theorem riskValue_nonneg_mem {r : String} (h : 0 ≤ riskValue r) :
    r ∈ riskLevels := by
  unfold riskValue riskOrder at h
  split_ifs at h with h1 h2 h3 h4 <;> first
    | (subst_vars; decide)
    | (exfalso; revert h; decide)

theorem riskMax_mem {a : String} (b : String) (ha : a ∈ riskLevels) :
    riskMax a b ∈ riskLevels := by
  unfold riskMax
  split_ifs with h
  · apply riskValue_nonneg_mem
    have : 0 ≤ riskValue a := by
      fin_cases ha <;> decide
    omega
  · exact ha

theorem foldRisk_mem (g : String → String) :
    ∀ (l : List String) (a : String), a ∈ riskLevels →
    l.foldl (fun acc c => riskMax acc (g c)) a ∈ riskLevels := by
  intro l
  induction l with
  | nil => intro a ha; simpa using ha
  | cons c rest ih =>
    intro a ha
    exact ih (riskMax a (g c)) (riskMax_mem (g c) ha)

theorem specActionRisk_mem (validate : List String → CommandValidation)
    (cmds : List String) : specActionRisk validate cmds ∈ riskLevels :=
  foldRisk_mem _ _ "low" (by decide)

theorem toRiskLevel_fix {r : String} (h : r ∈ riskLevels) :
    toRiskLevel r = r := by
  fin_cases h <;> decide

/-- Source `planStep` on one suggestion, through the (commands, risk) projection. -/
theorem planStep_proj (validate : List String → CommandValidation)
    (analysisID alertID env ns : String) (acc : List Action)
    (s : SuggestedAction) :
    (planStep validate analysisID alertID env ns acc s).map
        (fun a => (a.commands, a.risk)) =
      acc.map (fun a => (a.commands, a.risk)) ++
        (if survivingCommands validate s.commands = [] then []
         else [(survivingCommands validate s.commands,
                specActionRisk validate s.commands)]) := by
  obtain ⟨hv1, hv2⟩ := validateCommandsP_spec validate s.commands
  by_cases hs : survivingCommands validate s.commands = []
  · rw [if_pos hs, List.append_nil]
    unfold planStep
    have hvc1 : (validateCommandsP validate s.commands).1 = [] := by rw [hv1, hs]
    by_cases hdeny : (validateCommandsP validate s.commands).2.2 ≠ ""
    · rw [if_pos hdeny]
    · rw [if_neg hdeny, if_pos (by rw [hvc1]; rfl)]
  · obtain ⟨hd, hr⟩ := hv2 hs
    rw [if_neg hs]
    unfold planStep
    rw [if_neg (by rw [hd]; simp), if_neg (by rw [hv1]; simpa using hs)]
    simp only [List.map_append, List.map_cons, List.map_nil]
    congr 1
    have hrisk : toRiskLevel (validateCommandsP validate s.commands).2.1 =
        specActionRisk validate s.commands := by
      rw [hr]
      exact toRiskLevel_fix (specActionRisk_mem validate s.commands)
    simp [NewAction, Action.withEnvironment, Action.withNamespace,
      Action.withReversible, hv1, hrisk]

/-- C7: `Plan` refines the claim — each produced action corresponds to a
suggestion with a nonempty surviving-command list, keeps exactly those
surviving commands, and carries the maximum of their validated risk
grades (default low). -/
theorem C7_plan_refinement (validate : List String → CommandValidation)
    (analysisID alertID : String) (suggestions : List SuggestedAction)
    (env ns : String) :
    (plan validate analysisID alertID suggestions env ns).map
        (fun a => (a.commands, a.risk)) = planSpec validate suggestions := by
  suffices h : ∀ (sugs : List SuggestedAction) (acc : List Action),
      (sugs.foldl (planStep validate analysisID alertID env ns) acc).map
          (fun a => (a.commands, a.risk)) =
        acc.map (fun a => (a.commands, a.risk)) ++ planSpec validate sugs by
    simpa using h suggestions []
  intro sugs
  induction sugs with
  | nil => intro acc; simp [planSpec]
  | cons s rest ih =>
    intro acc
    rw [List.foldl_cons, ih, planStep_proj]
    by_cases hs : survivingCommands validate s.commands = []
    · rw [if_pos hs]
      simp [planSpec, List.filterMap_cons, hs]
    · rw [if_neg hs]
      simp [planSpec, List.filterMap_cons, hs]

/-! ## C9 -/

theorem withExecutedAt_nspace (a : Action) : a.withExecutedAt.nspace = a.nspace :=
  rfl

theorem withExecutedAt_commands (a : Action) :
    a.withExecutedAt.commands = a.commands :=
  rfl

/-- When every command succeeds with exit code 0, `runCommands` collects
the stdouts in order and reports no error. -/
theorem runCommands_all_ok (exec : String → List String → Except String ExecResult)
    (ns : String) (res : String → ExecResult) :
    ∀ (cmds : List String),
    (∀ cmd ∈ cmds, exec ns (fieldsS cmd) = .ok (res cmd) ∧ (res cmd).exitCode = 0) →
    runCommands exec ns cmds = (cmds.map (fun cmd => (res cmd).stdout), none) := by
  intro cmds
  induction cmds with
  | nil => intro _; rfl
  | cons cmd rest ih =>
    intro h
    have hc := h cmd (by simp)
    have hrest : ∀ c ∈ rest, exec ns (fieldsS c) = .ok (res c) ∧ (res c).exitCode = 0 :=
      fun c hcmem => h c (by simp [hcmem])
    simp only [runCommands, hc.1]
    rw [if_neg (by simp [hc.2])]
    rw [ih hrest]
    simp

/-- Source `runCommands` stops at the first command whose execution errors,
independently of what follows. -/
theorem runCommands_stop_error
    (exec : String → List String → Except String ExecResult) (ns : String)
    (cmd e : String) (post : List String) :
    ∀ (pre : List String),
    (∀ c ∈ pre, ∃ r, exec ns (fieldsS c) = .ok r ∧ r.exitCode = 0) →
    exec ns (fieldsS cmd) = .error e →
    (runCommands exec ns (pre ++ cmd :: post)).2 =
      some ("exec command " ++ cmd ++ ": " ++ e) := by
  intro pre
  induction pre with
  | nil =>
    intro _ hbad
    simp only [List.nil_append, runCommands, hbad]
  | cons c rest ih =>
    intro hpre hbad
    obtain ⟨r, hr, hz⟩ := hpre c (by simp)
    have hrest : ∀ c' ∈ rest, ∃ r', exec ns (fieldsS c') = .ok r' ∧ r'.exitCode = 0 :=
      fun c' hc' => hpre c' (by simp [hc'])
    simp only [List.cons_append, runCommands, hr]
    rw [if_neg (by simp [hz])]
    exact ih hrest hbad

/-- Source `runCommands` stops at the first command that exits non-zero,
independently of what follows. -/
theorem runCommands_stop_exit
    (exec : String → List String → Except String ExecResult) (ns : String)
    (cmd : String) (r : ExecResult) (post : List String) :
    ∀ (pre : List String),
    (∀ c ∈ pre, ∃ r', exec ns (fieldsS c) = .ok r' ∧ r'.exitCode = 0) →
    exec ns (fieldsS cmd) = .ok r → r.exitCode ≠ 0 →
    (runCommands exec ns (pre ++ cmd :: post)).2 =
      some ("command " ++ cmd ++ " exited with code " ++ toString r.exitCode ++ ": " ++ r.stderr) := by
  intro pre
  induction pre with
  | nil =>
    intro _ hbad hcode
    simp only [List.nil_append, runCommands, hbad, if_pos hcode]
  | cons c rest ih =>
    intro hpre hbad hcode
    obtain ⟨r', hr, hz⟩ := hpre c (by simp)
    have hrest : ∀ c' ∈ rest, ∃ r'', exec ns (fieldsS c') = .ok r'' ∧ r''.exitCode = 0 :=
      fun c' hc' => hpre c' (by simp [hc'])
    simp only [List.cons_append, runCommands, hr]
    rw [if_neg (by simp [hz])]
    exact ih hrest hbad hcode

/-- C9 counterexample: when execution fails, the yielded action is failed
but its Output field stays empty — the error text goes to ErrorMessage,
not to Output as the claim states. -/
theorem C9_counterexample :
    (executeAction execBoom actionRebootEx).1.status = "failed" ∧
    (executeAction execBoom actionRebootEx).1.errorMessage =
      "exec command reboot: boom" ∧
    (executeAction execBoom actionRebootEx).1.output = "" ∧
    "exec command reboot: boom" ≠ "" := by
  refine ⟨rfl, rfl, rfl, by decide⟩

/-- C9 amended: `executeAction` first marks the action executing, runs the
commands in order and stops at the first execution error or non-zero exit;
on success the action completes with the newline-joined stdouts as output,
and on failure the action is failed with the error text recorded in its
ErrorMessage field (the Output field is not set). -/
theorem C9_executeAction_behaviour :
    (∀ a : Action, a.withExecutedAt.status = "executing") ∧
    (∀ (exec : String → List String → Except String ExecResult) (a : Action)
        (res : String → ExecResult),
      (∀ cmd ∈ a.commands,
        exec a.nspace (fieldsS cmd) = .ok (res cmd) ∧ (res cmd).exitCode = 0) →
      executeAction exec a =
        (a.withExecutedAt.complete
          (joinWith "\n" (a.commands.map (fun cmd => (res cmd).stdout))), none)) ∧
    (∀ (exec : String → List String → Except String ExecResult) (a : Action)
        (pre post : List String) (cmd e : String),
      a.commands = pre ++ cmd :: post →
      (∀ c ∈ pre, ∃ r, exec a.nspace (fieldsS c) = .ok r ∧ r.exitCode = 0) →
      exec a.nspace (fieldsS cmd) = .error e →
      executeAction exec a =
        (a.withExecutedAt.fail ("exec command " ++ cmd ++ ": " ++ e),
         some ("exec command " ++ cmd ++ ": " ++ e))) ∧
    (∀ (exec : String → List String → Except String ExecResult) (a : Action)
        (pre post : List String) (cmd : String) (r : ExecResult),
      a.commands = pre ++ cmd :: post →
      (∀ c ∈ pre, ∃ r', exec a.nspace (fieldsS c) = .ok r' ∧ r'.exitCode = 0) →
      exec a.nspace (fieldsS cmd) = .ok r → r.exitCode ≠ 0 →
      executeAction exec a =
        (a.withExecutedAt.fail
          ("command " ++ cmd ++ " exited with code " ++ toString r.exitCode ++ ": " ++ r.stderr),
         some ("command " ++ cmd ++ " exited with code " ++ toString r.exitCode ++ ": " ++ r.stderr))) := by
  refine ⟨fun a => rfl, ?_, ?_, ?_⟩
  · intro exec a res h
    unfold executeAction
    simp only [withExecutedAt_nspace, withExecutedAt_commands,
      runCommands_all_ok exec a.nspace res a.commands h]
  · intro exec a pre post cmd e hcmds hpre hbad
    unfold executeAction
    have h2 := runCommands_stop_error exec a.nspace cmd e post pre hpre hbad
    rw [← hcmds] at h2
    rcases hrun : runCommands exec a.nspace a.commands with ⟨outs, merr⟩
    rw [hrun] at h2
    simp only at h2
    simp only [withExecutedAt_nspace, withExecutedAt_commands, hrun, h2]
  · intro exec a pre post cmd r hcmds hpre hbad hcode
    unfold executeAction
    have h2 := runCommands_stop_exit exec a.nspace cmd r post pre hpre hbad hcode
    rw [← hcmds] at h2
    rcases hrun : runCommands exec a.nspace a.commands with ⟨outs, merr⟩
    rw [hrun] at h2
    simp only at h2
    simp only [withExecutedAt_nspace, withExecutedAt_commands, hrun, h2]

/-- C9 witness: the amended behaviour at concrete inputs — a succeeding
command completes with its stdout, and the failing `reboot` action fails
with the error in ErrorMessage. -/
theorem C9_witness :
    actionLowEx.withExecutedAt.status = "executing" ∧
    executeAction execOk actionLowEx =
      (actionLowEx.withExecutedAt.complete
        (joinWith "\n" (actionLowEx.commands.map (fun _ =>
          ({ stdout := "out", stderr := "", exitCode := 0 } : ExecResult).stdout))), none) ∧
    executeAction execBoom actionRebootEx =
      (actionRebootEx.withExecutedAt.fail ("exec command " ++ "reboot" ++ ": " ++ "boom"),
       some ("exec command " ++ "reboot" ++ ": " ++ "boom")) := by
  obtain ⟨hmark, hok, herr, _⟩ := C9_executeAction_behaviour
  refine ⟨hmark actionLowEx, ?_, ?_⟩
  · exact hok execOk actionLowEx
      (fun _ => { stdout := "out", stderr := "", exitCode := 0 })
      (fun cmd _ => ⟨rfl, rfl⟩)
  · exact herr execBoom actionRebootEx [] [] "reboot" "boom" rfl
      (fun c hc => absurd hc (List.not_mem_nil c)) rfl

/-! ## C2 -/

/-- The `HandleAlert` action loop computes the conjunction of
`actionSettled` over the planned actions. -/
theorem handleActions_eq (c : OrchCollab) (env : String) :
    ∀ (actions : List Action) (b : Bool),
    handleActions c env actions b = (b && actions.all (actionSettled c env)) := by
  intro actions
  induction actions with
  | nil => intro b; simp [handleActions]
  | cons action rest ih =>
    intro b
    rw [List.all_cons]
    rcases hev : evaluate (c.policyLookup env) env action with ⟨decision, merr⟩
    rcases merr with _ | e
    · by_cases hal : decision.allowed = true
      · by_cases hna : decision.needsApproval = true
        · simp only [handleActions, actionSettled, hev, hal, hna]
          simp [ih]
        · rcases hca : c.createAction action with e' | created
          · simp only [handleActions, actionSettled, hev, hal, hna, hca]
            simp [ih]
          · rcases hex : executeAction c.exec created with ⟨a', merr'⟩
            rcases merr' with _ | e''
            · simp only [handleActions, actionSettled, hev, hal, hna, hca, hex]
              simp [ih]
            · simp only [handleActions, actionSettled, hev, hal, hna, hca, hex]
              simp [ih]
      · simp only [handleActions, actionSettled, hev, hal]
        simp [ih]
    · simp only [handleActions, actionSettled, hev]
      simp [ih]

/-- C2 counterexample: with a disabled policy every planned action is
denied, yet `HandleAlert` finishes with the alert resolved (a terminal
status) — the denied action does not keep the alert non-terminal. -/
theorem C2_counterexample :
    handleAlert collabDeniedEx alertEx =
      .ok ((alert2Ex.withStatus "acting").withStatus "resolved") ∧
    actionsDeniedEx.length = 1 ∧
    (∀ a ∈ actionsDeniedEx,
      (evaluate (collabDeniedEx.policyLookup alert2Ex.environment)
        alert2Ex.environment a).1.allowed = false) ∧
    ((alert2Ex.withStatus "acting").withStatus "resolved").isTerminal = true := by
  refine ⟨rfl, rfl, ?_, rfl⟩
  decide

/-- C2 amended: when the pipeline prefix succeeds, the final alert status
is resolved iff every planned action was either denied or auto-executed
successfully without requiring approval (`actionSettled`); otherwise the
alert is left at the non-terminal status acting.  Denied actions do NOT
prevent resolution. -/
theorem C2_amended_final_status (c : OrchCollab) (alert saved : Alert)
    (threadID : String) (analysis analysisSaved : Analysis)
    (suggestions : List SuggestedAction)
    (h1 : c.createAlert alert = .ok saved)
    (h2 : c.notifyAlert saved = .ok threadID)
    (h3 : c.updateAlert (saved.withThreadID threadID) = none)
    (h4 : c.updateAlert ((saved.withThreadID threadID).withStatus "analyzing") = none)
    (h5 : (analyzeAlert c.analyzer
      ((saved.withThreadID threadID).withStatus "analyzing")).1 = .ok (analysis, suggestions))
    (h6 : c.createAnalysis analysis = .ok analysisSaved) :
    handleAlert c alert =
      .ok (if (plan c.validate analysisSaved.id
                ((saved.withThreadID threadID).withStatus "analyzing").id suggestions
                ((saved.withThreadID threadID).withStatus "analyzing").environment
                ((saved.withThreadID threadID).withStatus "analyzing").nspace).all
              (actionSettled c
                (((saved.withThreadID threadID).withStatus "analyzing").withStatus "acting").environment)
           then ((((saved.withThreadID threadID).withStatus "analyzing").withStatus
                  "acting").withStatus "resolved")
           else (((saved.withThreadID threadID).withStatus "analyzing").withStatus "acting")) ∧
    ((((saved.withThreadID threadID).withStatus "analyzing").withStatus
        "acting").withStatus "resolved").status = "resolved" ∧
    ((((saved.withThreadID threadID).withStatus "analyzing").withStatus
        "acting").withStatus "resolved").isTerminal = true ∧
    ((((saved.withThreadID threadID).withStatus "analyzing").withStatus
        "acting")).status = "acting" ∧
    ((((saved.withThreadID threadID).withStatus "analyzing").withStatus
        "acting")).isTerminal = false := by
  refine ⟨?_, rfl, rfl, rfl, rfl⟩
  simp only [handleAlert, h1, h2, h3, h4, h5, h6]
  rw [handleActions_eq]
  simp only [Bool.true_and]
  split
  · rfl
  · rfl

/-- C2 witness: the amended theorem applied to the concrete denied-policy
pipeline, where every hypothesis holds by computation. -/
theorem C2_witness :
    (collabDeniedEx.createAlert alertEx = .ok alertEx ∧
     collabDeniedEx.notifyAlert alertEx = .ok "thread-1" ∧
     collabDeniedEx.updateAlert (alertEx.withThreadID "thread-1") = none ∧
     collabDeniedEx.updateAlert
       ((alertEx.withThreadID "thread-1").withStatus "analyzing") = none) ∧
    handleAlert collabDeniedEx alertEx =
      .ok (if (plan collabDeniedEx.validate analysisEx.id
                ((alertEx.withThreadID "thread-1").withStatus "analyzing").id [sugEx]
                ((alertEx.withThreadID "thread-1").withStatus "analyzing").environment
                ((alertEx.withThreadID "thread-1").withStatus "analyzing").nspace).all
              (actionSettled collabDeniedEx
                (((alertEx.withThreadID "thread-1").withStatus "analyzing").withStatus "acting").environment)
           then ((((alertEx.withThreadID "thread-1").withStatus "analyzing").withStatus
                  "acting").withStatus "resolved")
           else (((alertEx.withThreadID "thread-1").withStatus "analyzing").withStatus "acting")) := by
  have h := C2_amended_final_status collabDeniedEx alertEx alertEx "thread-1"
    analysisEx analysisEx [sugEx] rfl rfl rfl rfl rfl rfl
  exact ⟨⟨rfl, rfl, rfl, rfl⟩, h.1⟩

/-! ## C10 -/

/-- C10: for n ≥ 0, `LastNMessages` returns exactly the last
min(n, len) messages in order (the whole list when n ≥ len) and the slice
stays in bounds; for negative n on a nonempty thread the computed suffix
index exceeds the slice bounds (a Go panic, modelled as `none`). -/
theorem C10_lastNMessages (c : ConversationThread) (n : Int) :
    (0 ≤ n →
      c.lastNMessages n =
        some (c.messages.drop (c.messages.length - min n.toNat c.messages.length)) ∧
      ∃ l, c.lastNMessages n = some l ∧
        l.length = min n.toNat c.messages.length ∧
        (n ≥ c.messages.length → l = c.messages)) ∧
    (n < 0 → 1 ≤ c.messages.length → c.lastNMessages n = none) := by
  constructor
  · intro hn
    by_cases hge : (c.messages.length : Int) ≤ n
    · have hmin : min n.toNat c.messages.length = c.messages.length := by
        have : (c.messages.length : Int) ≤ n := hge
        omega
      refine ⟨?_, c.messages, ?_, ?_, fun _ => rfl⟩ <;>
        simp [ConversationThread.lastNMessages, hge, hmin]
    · have hlt : n < (c.messages.length : Int) := lt_of_not_ge hge
      have hmin : min n.toNat c.messages.length = n.toNat := by omega
      have hbound : 0 ≤ (c.messages.length : Int) - n ∧
          (c.messages.length : Int) - n ≤ (c.messages.length : Int) := by omega
      have htn : ((c.messages.length : Int) - n).toNat =
          c.messages.length - n.toNat := by omega
      refine ⟨?_, c.messages.drop (c.messages.length - n.toNat), ?_, ?_, ?_⟩
      · simp [ConversationThread.lastNMessages, hge, hbound, hmin, htn]
      · simp [ConversationThread.lastNMessages, hge, hbound, htn]
      · rw [List.length_drop]
        omega
      · intro hcontra
        exfalso
        omega
  · intro hneg hlen
    have hge : ¬ ((c.messages.length : Int) ≤ n) := by omega
    have hbound : ¬ (0 ≤ (c.messages.length : Int) - n ∧
        (c.messages.length : Int) - n ≤ (c.messages.length : Int)) := by omega
    simp only [ConversationThread.lastNMessages, if_neg hge]
    rw [if_neg hbound]

/-- C10 witness: on a two-message thread, n = 1 yields the last message and
n = -1 is out of bounds. -/
theorem C10_witness :
    (0 ≤ (1 : Int) ∧
      threadEx.lastNMessages 1 =
        some (threadEx.messages.drop (threadEx.messages.length - min (1 : Int).toNat threadEx.messages.length))) ∧
    ((-1 : Int) < 0 ∧ 1 ≤ threadEx.messages.length ∧
      threadEx.lastNMessages (-1) = none) := by
  have h1 := (C10_lastNMessages threadEx 1).1 (by decide)
  have h2 := (C10_lastNMessages threadEx (-1)).2 (by decide) (by decide)
  exact ⟨⟨by decide, h1.1⟩, ⟨by decide, by decide, h2⟩⟩

end OpsAI
